import Mathlib

/-!
Verification of the pandas-to-postgres bulk transfer engine.

The definitions below are a shallow embedding of the repository's Python
source: dataframes become `List α`, database calls become explicit outcome
values (`DbOutcome`), exceptions become explicit result constructors, and
straight-line methods with side effects become trace-producing functions.
Each claim about the specification is settled by a theorem about these
definitions.
-/

namespace PandasToPostgres

/-- Ceiling division on naturals, `ceil(a / b)`, used to state the chunk-count
properties of the spec. -/
def ceilDiv (a b : Nat) : Nat := (a + b - 1) / b

theorem ceilDiv_eq {n c : Nat} (hc : 0 < c) :
    ceilDiv n c = if n % c = 0 then n / c else n / c + 1 := by
  have hm := Nat.div_add_mod n c
  have hr : n % c < c := Nat.mod_lt _ hc
  by_cases h0 : n % c = 0
  · have h1 : n + c - 1 = c * (n / c) + (c - 1) := by omega
    rw [ceilDiv, h1, Nat.mul_add_div hc,
      Nat.div_eq_of_lt (show c - 1 < c by omega), if_pos h0, Nat.add_zero]
  · have h1 : n + c - 1 = c * (n / c + 1) + (n % c - 1) := by
      rw [Nat.mul_succ]; omega
    rw [ceilDiv, h1, Nat.mul_add_div hc,
      Nat.div_eq_of_lt (show n % c - 1 < c by omega), if_neg h0]

/-- Number of chunks computed by `utilities.df_generator`:
`if not df.shape[0] % chunksize: n_chunks = max(df.shape[0] // chunksize, 1)
 else: n_chunks = (df.shape[0] // chunksize) + 1`. -/
def n_chunks (rows chunksize : Nat) : Nat :=
  if rows % chunksize = 0 then max (rows / chunksize) 1 else rows / chunksize + 1

/-- Embedding of `utilities.df_generator(df, chunksize)`: after computing
`n_chunks`, iteration `i` yields `df.iloc[rows : rows + chunksize]` with
`rows = i * chunksize`, i.e. drop `i * chunksize` rows and take `chunksize`. -/
def df_generator {α : Type} (df : List α) (chunksize : Nat) : List (List α) :=
  (List.range (n_chunks df.length chunksize)).map
    (fun i => (df.drop (i * chunksize)).take chunksize)

theorem n_chunks_mul_ge {n c : Nat} (hc : 0 < c) : n ≤ n_chunks n c * c := by
  have hm := Nat.div_add_mod n c
  have hr : n % c < c := Nat.mod_lt _ hc
  unfold n_chunks
  by_cases h0 : n % c = 0
  · rw [if_pos h0]
    have h1 : c * (n / c) ≤ c * max (n / c) 1 :=
      Nat.mul_le_mul_left _ (Nat.le_max_left _ _)
    have h2 : max (n / c) 1 * c = c * max (n / c) 1 := Nat.mul_comm _ _
    omega
  · rw [if_neg h0]
    have h2 : (n / c + 1) * c = c * (n / c) + c := by
      rw [Nat.add_mul, Nat.one_mul, Nat.mul_comm]
    omega

/-- Concatenating the `m` successive `(drop (i*c)).take c` slices of a list of
length at most `m * c` recovers the list. Shared backbone for the chunk-sum
and streaming-window cover properties. -/
theorem flatten_chunks {α : Type} (c : Nat) :
    ∀ (m : Nat) (df : List α), df.length ≤ m * c →
      (List.map (fun i => (df.drop (i * c)).take c) (List.range m)).flatten = df
  | 0, df, h => by
      have hdf : df = [] := List.eq_nil_of_length_eq_zero (by omega)
      simp [hdf]
  | m + 1, df, h => by
      have hlen : (df.drop c).length ≤ m * c := by
        rw [Nat.succ_mul] at h
        simp only [List.length_drop]
        omega
      have ih := flatten_chunks c m (df.drop c) hlen
      rw [List.range_succ_eq_map, List.map_cons, List.map_map, List.flatten_cons]
      have hfc : ((fun i => (df.drop (i * c)).take c) ∘ Nat.succ) =
          fun i => ((df.drop c).drop (i * c)).take c := by
        funext i
        have hmul : Nat.succ i * c = c + i * c := by
          rw [Nat.succ_mul, Nat.add_comm]
        rw [Function.comp_apply, hmul, ← List.drop_drop]
      rw [hfc, ih]
      simp [List.take_append_drop]

/-- C3: the claim fails at `R = 0`: `df_generator` on an empty dataframe emits
`max(0 // C, 1) = 1` chunk, while `ceil(0 / C) = 0`. -/
theorem c3_counterexample : (df_generator ([] : List Nat) 3).length ≠ ceilDiv 0 3 := by
  decide

/-- C3 (amended): for every dataframe and chunk size `C > 0`, `df_generator`
emits exactly `ceil(R / C)` chunks when the row count `R` is positive, exactly
one (empty) chunk when `R = 0`, and in all cases the emitted chunk row counts
sum to `R`. -/
theorem c3_amended {α : Type} (df : List α) (C : Nat) (hC : 0 < C) :
    (df ≠ [] → (df_generator df C).length = ceilDiv df.length C)
    ∧ (df = [] → (df_generator df C).length = 1)
    ∧ ((df_generator df C).map List.length).sum = df.length := by
  refine ⟨?_, ?_, ?_⟩
  · intro hne
    have hpos : 0 < df.length := List.length_pos.mpr hne
    simp only [df_generator, List.length_map, List.length_range]
    rw [ceilDiv_eq hC, n_chunks]
    by_cases h0 : df.length % C = 0
    · rw [if_pos h0, if_pos h0]
      have hm := Nat.div_add_mod df.length C
      have hq : 0 < df.length / C := by
        rcases Nat.eq_zero_or_pos (df.length / C) with h | h
        · rw [h, Nat.mul_zero] at hm
          omega
        · exact h
      omega
    · rw [if_neg h0, if_neg h0]
  · intro he
    subst he
    simp [df_generator, n_chunks]
  · rw [← List.length_flatten, df_generator,
      flatten_chunks C (n_chunks df.length C) df (n_chunks_mul_ge hC)]

/-- C3 amended, witness: a 5-row dataframe with chunk size 2 yields
`ceil(5/2) = 3` chunks whose row counts sum to 5. -/
theorem c3_amended_witness :
    (df_generator ([0, 1, 2, 3, 4] : List Nat) 2).length = ceilDiv 5 2
    ∧ ((df_generator ([0, 1, 2, 3, 4] : List Nat) 2).map List.length).sum = 5 :=
  ⟨(c3_amended [0, 1, 2, 3, 4] 2 (by decide)).1 (by decide),
   (c3_amended [0, 1, 2, 3, 4] 2 (by decide)).2.2⟩

/-- Number of source read windows computed in `BigHDFTableCopy.hdf_to_pg`:
`if nrows % self.hdf_chunksize: n_chunks = (nrows // self.hdf_chunksize) + 1
 else: n_chunks = nrows // self.hdf_chunksize`. -/
def big_n_chunks (nrows chunksize : Nat) : Nat :=
  if nrows % chunksize = 0 then nrows / chunksize else nrows / chunksize + 1

/-- Embedding of the `[start, stop)` read windows issued by
`BigHDFTableCopy.hdf_to_pg`: iteration `i` has `start = i * chunksize`
(`start` begins at 0 and is incremented by `chunksize` each pass) and
`stop = min(start + chunksize, nrows)`. -/
def bigHdfWindows (nrows chunksize : Nat) : List (Nat × Nat) :=
  (List.range (big_n_chunks nrows chunksize)).map
    (fun i => (i * chunksize, min (i * chunksize + chunksize) nrows))

theorem big_n_chunks_eq {n c : Nat} (hc : 0 < c) : big_n_chunks n c = ceilDiv n c := by
  rw [ceilDiv_eq hc, big_n_chunks]

theorem big_n_chunks_mul_ge {n c : Nat} (hc : 0 < c) : n ≤ big_n_chunks n c * c := by
  have hm := Nat.div_add_mod n c
  have hr : n % c < c := Nat.mod_lt _ hc
  unfold big_n_chunks
  by_cases h0 : n % c = 0
  · rw [if_pos h0]
    have h2 : n / c * c = c * (n / c) := Nat.mul_comm _ _
    omega
  · rw [if_neg h0]
    have h2 : (n / c + 1) * c = c * (n / c) + c := by
      rw [Nat.add_mul, Nat.one_mul, Nat.mul_comm]
    omega

theorem take_range' : ∀ (c k s : Nat), (List.range' s k).take c = List.range' s (min c k)
  | 0, k, s => by simp
  | c + 1, 0, s => by simp
  | c + 1, k + 1, s => by
      rw [List.range'_succ, List.take_succ_cons, take_range' c k (s + 1),
        Nat.succ_min_succ, List.range'_succ]

theorem drop_range' : ∀ (a k s : Nat), (List.range' s k).drop a = List.range' (s + a) (k - a)
  | 0, k, s => by simp
  | a + 1, 0, s => by simp
  | a + 1, k + 1, s => by
      rw [List.range'_succ, List.drop_succ_cons, drop_range' a k (s + 1)]
      congr 1 <;> omega

/-- C5: in streaming mode with `total_rows = nrows` and read-chunk size
`chunksize > 0`, the source is read in exactly `ceil(nrows / chunksize)`
half-open windows taken in order, window `i` being
`[i * chunksize, min((i+1) * chunksize, nrows))`; every window except the last
has size `chunksize`, the last is truncated to the remainder, and the windows
laid end to end enumerate `[0, nrows)` exactly once (cover without overlap). -/
theorem c5_streaming_windows (n c : Nat) (hc : 0 < c) :
    (bigHdfWindows n c).length = ceilDiv n c
    ∧ (∀ i, i < ceilDiv n c →
        (bigHdfWindows n c)[i]? = some (i * c, min (i * c + c) n))
    ∧ (∀ i, i + 1 < ceilDiv n c →
        ((bigHdfWindows n c)[i]?).map (fun w => w.2 - w.1) = some c)
    ∧ (0 < ceilDiv n c →
        ((bigHdfWindows n c)[ceilDiv n c - 1]?).map (fun w => w.2 - w.1)
          = some (n - (ceilDiv n c - 1) * c))
    ∧ ((bigHdfWindows n c).map (fun w => List.range' w.1 (w.2 - w.1))).flatten
        = List.range n := by
  have hmn : big_n_chunks n c = ceilDiv n c := big_n_chunks_eq hc
  have hwin : ∀ i, i < ceilDiv n c →
      (bigHdfWindows n c)[i]? = some (i * c, min (i * c + c) n) := by
    intro i hi
    rw [bigHdfWindows, List.getElem?_map, List.getElem?_range (show i < big_n_chunks n c by rw [hmn]; exact hi)]
    rfl
  refine ⟨by simp [bigHdfWindows, hmn], hwin, ?_, ?_, ?_⟩
  · intro i hi
    rw [hwin i (by omega)]
    have hle : (i + 2) * c ≤ n + c - 1 := by
      have := (Nat.le_div_iff_mul_le hc).mp (show i + 2 ≤ ceilDiv n c from hi)
      exact this
    have hexp : (i + 2) * c = i * c + c + c := by ring
    simp only [Option.map_some']
    congr 1
    omega
  · intro hpos
    have hnm : n ≤ ceilDiv n c * c := by
      rw [← hmn]
      exact big_n_chunks_mul_ge hc
    rw [hwin (ceilDiv n c - 1) (by omega)]
    have hm1 : (ceilDiv n c - 1) * c + c = ceilDiv n c * c := by
      have h1 : ceilDiv n c = ceilDiv n c - 1 + 1 := by omega
      calc (ceilDiv n c - 1) * c + c = (ceilDiv n c - 1 + 1) * c := by rw [Nat.succ_mul]
        _ = ceilDiv n c * c := by rw [← h1]
    simp only [Option.map_some']
    congr 1
    omega
  · rw [bigHdfWindows, List.map_map]
    have hfe : ((fun w : Nat × Nat => List.range' w.1 (w.2 - w.1)) ∘
        (fun i => (i * c, min (i * c + c) n))) =
        fun i => ((List.range n).drop (i * c)).take c := by
      funext i
      rw [Function.comp_apply, List.range_eq_range', drop_range', take_range']
      congr 1
      · omega
      · omega
    rw [hfe]
    exact flatten_chunks c (big_n_chunks n c) (List.range n)
      (by simpa using big_n_chunks_mul_ge hc)

/-- C5, witness: 7 rows with read-chunk size 3 give `ceil(7/3) = 3` windows
which enumerate rows 0..6 in order. -/
theorem c5_streaming_windows_witness :
    (bigHdfWindows 7 3).length = ceilDiv 7 3
    ∧ ((bigHdfWindows 7 3).map (fun w => List.range' w.1 (w.2 - w.1))).flatten
        = List.range 7 :=
  ⟨(c5_streaming_windows 7 3 (by decide)).1,
   (c5_streaming_windows 7 3 (by decide)).2.2.2.2⟩

/-- Python exception classes relevant to the embedded code paths. -/
inductive PyError
  | sqlAlchemyError
  | unboundLocalError
  | typeError
  | attributeError
  | valueError
  deriving DecidableEq, Repr

/-- Outcome of a single database `execute` call. The database is outside the
program, so the outcome is an input of the embedded methods. -/
inductive DbOutcome
  | ok
  | sqlError
  deriving DecidableEq, Repr

/-- Log level used by the constraint-manager handlers. -/
inductive LogLevel
  | info
  | warn
  deriving DecidableEq, Repr

/-- Result of a `drop_pk` call: the exception it raises, if any, and the level
of the "primary key not found. Skipping" message, if emitted. -/
structure DropPkResult where
  raised : Option PyError
  skipLoggedAt : Option LogLevel
  deriving DecidableEq, Repr

/-- Embedding of `BaseCopy.drop_pk` (`_base_copy.py` lines 75-91): the
`DropConstraint(self.primary_key, cascade="all")` execute runs inside
`try ... except SQLAlchemyError`; the handler logs
"{table} primary key not found. Skipping" via `logger.info` and falls
through, so the method returns normally. -/
def BaseCopy.drop_pk (exec : DbOutcome) : DropPkResult :=
  match exec with
  | .ok => ⟨none, none⟩
  | .sqlError => ⟨none, some .info⟩

/-- Embedding of `DataFrameCopy.drop_pk` (`copy_df.py` lines 40-46): same
`try ... except SQLAlchemyError` shape with an info-level skip message. -/
def DataFrameCopy.drop_pk (exec : DbOutcome) : DropPkResult :=
  match exec with
  | .ok => ⟨none, none⟩
  | .sqlError => ⟨none, some .info⟩

/-- Result of a `create_pk` call. -/
structure CreatePkResult where
  raised : Option PyError
  pkCreated : Bool
  deriving DecidableEq, Repr

/-- Embedding of `BaseCopy.create_pk` (`_base_copy.py` lines 93-99): the
`AddConstraint(self.primary_key)` execute is wrapped in a bare
`try ... except` that prints "skipping adding pk", so any failure is
swallowed and the method returns normally. -/
def BaseCopy.create_pk (exec : DbOutcome) : CreatePkResult :=
  match exec with
  | .ok => ⟨none, true⟩
  | .sqlError => ⟨none, false⟩

/-- Embedding of `DataFrameCopy.create_pk` (`copy_df.py` lines 48-50): the
`AddConstraint` execute has no exception handler, so a failure propagates. -/
def DataFrameCopy.create_pk (exec : DbOutcome) : CreatePkResult :=
  match exec with
  | .ok => ⟨none, true⟩
  | .sqlError => ⟨some .sqlAlchemyError, false⟩

/-- Result of a foreign-key drop/create loop: exception raised out of the
method (if any), number of constraints from the list whose drop/create was
attempted, and number of per-constraint failures logged at warn level. -/
structure FkLoopResult where
  raised : Option PyError
  processed : Nat
  warnLogged : Nat
  deriving DecidableEq, Repr

/-- The per-constraint loop shared by `BaseCopy.drop_fks`,
`DataFrameCopy.drop_fks`, `DataFrameCopy.create_fks` and the main loop of
`BaseCopy.create_fks`: each constraint's execute sits in its own
`try ... except SQLAlchemyError` whose handler logs a warning, so the loop
always advances to the next constraint. -/
def fkLoop : List DbOutcome → FkLoopResult
  | [] => ⟨none, 0, 0⟩
  | o :: rest =>
      let r := fkLoop rest
      match o with
      | .ok => ⟨r.raised, r.processed + 1, r.warnLogged⟩
      | .sqlError => ⟨r.raised, r.processed + 1, r.warnLogged + 1⟩

/-- Embedding of `BaseCopy.drop_fks` (`_base_copy.py` lines 101-113). -/
def BaseCopy.drop_fks (fks : List DbOutcome) : FkLoopResult := fkLoop fks

/-- Embedding of `BaseCopy.create_fks` (`_base_copy.py` lines 115-149).
Before the per-constraint loop, when `self.sql_table == "naics_industry"`, a
hardcoded `ALTER TABLE ... ADD FOREIGN KEY` runs inside a
`try ... except SQLAlchemyError` whose handler formats `fk.name`; `fk` is a
local of the later loop and is unbound at that point, so the handler itself
raises `UnboundLocalError`, aborting the method before any constraint in the
list is processed. -/
def BaseCopy.create_fks (sql_table : String) (special : DbOutcome)
    (fks : List DbOutcome) : FkLoopResult :=
  if sql_table = "naics_industry" then
    match special with
    | .ok => fkLoop fks
    | .sqlError => ⟨some .unboundLocalError, 0, 0⟩
  else fkLoop fks

/-- C7: for a `drop_pk` invocation whose primary-key constraint does not
exist (the execute raises SQLAlchemyError), both implementations catch the
error, log the skip message at info level, and return normally, so no
exception propagates. -/
theorem c7_drop_pk_idempotent :
    BaseCopy.drop_pk .sqlError = ⟨none, some .info⟩
    ∧ DataFrameCopy.drop_pk .sqlError = ⟨none, some .info⟩ :=
  ⟨rfl, rfl⟩

/-- C2: code evaluated at the failing input: when re-adding the primary key
fails, `BaseCopy.create_pk` swallows the exception through its bare `except`
and returns normally with the constraint missing, so the failure does not
propagate to the caller; only `DataFrameCopy.create_pk` propagates it. -/
theorem c2_create_pk_swallows_failure :
    BaseCopy.create_pk .sqlError = ⟨none, false⟩
    ∧ DataFrameCopy.create_pk .sqlError = ⟨some .sqlAlchemyError, false⟩ :=
  ⟨rfl, rfl⟩

/-- C6: code evaluated at the failing input: `BaseCopy.create_fks` on table
"naics_industry" whose hardcoded pre-loop foreign-key creation fails raises
`UnboundLocalError` from its own handler, logs no warning, and processes none
of the three constraints in the list — the iteration is aborted; by contrast
the plain loop (`drop_fks`) processes every constraint and keeps going past
failures. -/
theorem c6_create_fks_aborts :
    BaseCopy.create_fks "naics_industry" .sqlError [.ok, .sqlError, .ok]
      = ⟨some .unboundLocalError, 0, 0⟩
    ∧ BaseCopy.drop_fks [.sqlError, .ok, .sqlError] = ⟨none, 3, 2⟩ :=
  ⟨rfl, rfl⟩

/-- One step of a copy job's schema-mutation / load sequence. -/
inductive Step
  | dropFks
  | dropPk
  | formatDf
  | txBegin
  | truncateTable
  | copyData
  | txCommit
  | createPk
  | createFks
  | analyzeTable
  deriving DecidableEq, BEq, Repr

/-- A `with self.conn.begin():` block: the steps it encloses, bracketed by the
transaction begin and commit. -/
def withTx (body : List Step) : List Step :=
  Step.txBegin :: body ++ [Step.txCommit]

/-- Step trace of `HDFTableCopy.copy` (`copy_hdf.py` lines 57-82): `drop_fks`
and `drop_pk` run first, then `truncate` and `hdf_to_pg` inside the
`with self.conn.begin()` block, then `create_pk`, `create_fks`, `analyze`. -/
def HDFTableCopy.copySteps : List Step :=
  [Step.dropFks, Step.dropPk]
    ++ withTx [Step.truncateTable, Step.copyData]
    ++ [Step.createPk, Step.createFks, Step.analyzeTable]

/-- Step trace of `DataFrameCopy.copy` (`copy_df.py` lines 91-112): same
shape, with `format_df` before the transaction. -/
def DataFrameCopy.copySteps : List Step :=
  [Step.dropFks, Step.dropPk, Step.formatDf]
    ++ withTx [Step.truncateTable, Step.copyData]
    ++ [Step.createPk, Step.createFks, Step.analyzeTable]

/-- A step lies inside the job's transaction: strictly between the `txBegin`
and `txCommit` markers of the trace. -/
def insideTx (trace : List Step) (s : Step) : Bool :=
  trace.indexOf Step.txBegin < trace.indexOf s
    && trace.indexOf s < trace.indexOf Step.txCommit

/-- C1: the claim fails on the code: in `HDFTableCopy.copy` (and likewise
`DataFrameCopy.copy`) the drop-constraints and recreate-constraints steps are
not inside the `conn.begin()` transaction — only truncate and copy are. -/
theorem c1_counterexample :
    ¬ (insideTx HDFTableCopy.copySteps .dropFks = true
       ∧ insideTx HDFTableCopy.copySteps .dropPk = true
       ∧ insideTx HDFTableCopy.copySteps .truncateTable = true
       ∧ insideTx HDFTableCopy.copySteps .copyData = true
       ∧ insideTx HDFTableCopy.copySteps .createPk = true
       ∧ insideTx HDFTableCopy.copySteps .createFks = true) := by
  decide

/-- C1 (amended): in both copy classes only the truncate and copy steps run
inside the single database transaction; the constraint drops run strictly
before the transaction begins and the constraint recreation strictly after it
commits. -/
theorem c1_amended :
    (insideTx HDFTableCopy.copySteps .truncateTable = true
     ∧ insideTx HDFTableCopy.copySteps .copyData = true
     ∧ HDFTableCopy.copySteps.indexOf .dropFks
         < HDFTableCopy.copySteps.indexOf .txBegin
     ∧ HDFTableCopy.copySteps.indexOf .dropPk
         < HDFTableCopy.copySteps.indexOf .txBegin
     ∧ HDFTableCopy.copySteps.indexOf .txCommit
         < HDFTableCopy.copySteps.indexOf .createPk
     ∧ HDFTableCopy.copySteps.indexOf .txCommit
         < HDFTableCopy.copySteps.indexOf .createFks)
    ∧ (insideTx DataFrameCopy.copySteps .truncateTable = true
     ∧ insideTx DataFrameCopy.copySteps .copyData = true
     ∧ DataFrameCopy.copySteps.indexOf .dropFks
         < DataFrameCopy.copySteps.indexOf .txBegin
     ∧ DataFrameCopy.copySteps.indexOf .dropPk
         < DataFrameCopy.copySteps.indexOf .txBegin
     ∧ DataFrameCopy.copySteps.indexOf .txCommit
         < DataFrameCopy.copySteps.indexOf .createPk
     ∧ DataFrameCopy.copySteps.indexOf .txCommit
         < DataFrameCopy.copySteps.indexOf .createFks) := by
  decide

/-- Shape of `hdf_to_postgres`'s `processes` argument: `None`, an `int`, or
anything else (which raises ValueError). -/
inductive Processes
  | noneArg
  | intArg (n : Nat)
  | otherArg
  deriving DecidableEq, Repr

/-- Sequential branch of `hdf_to_postgres` (`hdf_to_postgres.py` lines
173-176): `for table in tables: copy_worker(...)`; an exception raised by a
job propagates out of the loop at once. Each job is represented by its
outcome (`none` = success). Returns the number of jobs executed and the
exception raised, if any. -/
def runSequential : List (Option PyError) → Nat × Option PyError
  | [] => (0, none)
  | none :: rest =>
      let r := runSequential rest
      (r.1 + 1, r.2)
  | some e :: _ => (1, some e)

/-- The failure captured by the pool's map result: the first failing job's
exception. -/
def firstFailure (jobs : List (Option PyError)) : Option PyError :=
  jobs.findSome? id

/-- Parallel branch of `hdf_to_postgres` (lines 178-198), with the pool
semantics modelled per the standard library's contract: `starmap_async`
dispatches every job, `close`/`join` wait for all of them to finish
regardless of individual failures, and `result.get()` re-raises the first
captured failure when `result.successful()` is false. -/
def runParallel (jobs : List (Option PyError)) : Nat × Option PyError :=
  (jobs.length, firstFailure jobs)

/-- Embedding of the job-dispatch part of `hdf_to_postgres` (lines 173-201),
parametric in the outcome each job would produce. -/
def hdf_to_postgres_dispatch (processes : Processes)
    (jobs : List (Option PyError)) : Nat × Option PyError :=
  match processes with
  | .noneArg => runSequential jobs
  | .intArg _ => runParallel jobs
  | .otherArg => (0, some .valueError)

theorem runSequential_first_failure (pre post : List (Option PyError))
    (e : PyError) (hpre : ∀ j ∈ pre, j = none) :
    runSequential (pre ++ some e :: post) = (pre.length + 1, some e) := by
  induction pre with
  | nil => simp [runSequential]
  | cons a t ih =>
      have ha : a = none := hpre a (by simp)
      subst ha
      have ht : ∀ j ∈ t, j = none := fun j hj => hpre j (by simp [hj])
      rw [List.cons_append]
      show ((runSequential (t ++ some e :: post)).1 + 1,
        (runSequential (t ++ some e :: post)).2) = _
      rw [ih ht]
      simp

theorem firstFailure_append (pre post : List (Option PyError)) (e : PyError)
    (hpre : ∀ j ∈ pre, j = none) :
    firstFailure (pre ++ some e :: post) = some e := by
  induction pre with
  | nil => simp [firstFailure, List.findSome?_cons]
  | cons a t ih =>
      have ha : a = none := hpre a (by simp)
      subst ha
      have ht : ∀ j ∈ t, j = none := fun j hj => hpre j (by simp [hj])
      rw [List.cons_append]
      show List.findSome? id (none :: (t ++ some e :: post)) = some e
      rw [List.findSome?_cons]
      exact ih ht

/-- C4: when a job list consists of successful jobs `pre`, then a job failing
with `e`, then further jobs `post`: with `processes=None` the orchestrator
executes exactly the `pre.length + 1` jobs up to and including the failing one
and raises `e` at once, leaving the `post.length` remaining jobs unexecuted;
with an integer process count (a valid pool size) every one of the jobs is
executed and only then is the first captured failure `e` raised. -/
theorem c4_orchestrator_failure_modes (pre post : List (Option PyError))
    (e : PyError) (n : Nat) (hpre : ∀ j ∈ pre, j = none) (hn : 0 < n) :
    hdf_to_postgres_dispatch .noneArg (pre ++ some e :: post)
        = (pre.length + 1, some e)
    ∧ hdf_to_postgres_dispatch (.intArg n) (pre ++ some e :: post)
        = ((pre ++ some e :: post).length, some e)
    ∧ pre.length + 1 + post.length = (pre ++ some e :: post).length := by
  refine ⟨runSequential_first_failure pre post e hpre, ?_, by simp; omega⟩
  show runParallel _ = _
  rw [runParallel, firstFailure_append pre post e hpre]

/-- C4, witness: three jobs of which the second fails: sequential mode
executes 2 jobs and raises; parallel mode executes all 3 and raises. -/
theorem c4_orchestrator_failure_modes_witness :
    hdf_to_postgres_dispatch .noneArg [none, some .sqlAlchemyError, none]
        = (2, some .sqlAlchemyError)
    ∧ hdf_to_postgres_dispatch (.intArg 2) [none, some .sqlAlchemyError, none]
        = (3, some .sqlAlchemyError) := by
  have h := c4_orchestrator_failure_modes [none] [none] .sqlAlchemyError 2
    (by simp) (by decide)
  exact ⟨h.1, h.2.1⟩

/-- One step of `copy_worker` (`hdf_to_postgres.py` lines 49-103). -/
inductive WorkerStep
  | createEngineStep
  | reflectMetadata
  | connectStep
  | setMaintenanceMem
  | tableLookup
  | instantiateCall
  | runCopy
  deriving DecidableEq, Repr

/-- The method names defined on the copy classes reachable from
`copy_worker` — `BaseCopy` (`_base_copy.py`) plus `HDFTableCopy` and its
subclasses (`copy_hdf.py`). The deferred initializer is named
`instantiate_attrs`; no class defines `instantiate_sql_objs`. -/
def copyClassMethods : List String :=
  ["__init__", "instantiate_attrs", "drop_pk", "create_pk", "drop_fks",
   "create_fks", "truncate", "analyze", "copy_from_file", "data_formatting",
   "copy", "hdf_to_pg"]

/-- Embedding of `copy_worker`: engine, metadata and connection setup, the
optional `maintenance_work_mem` statement, then the destination-table lookup
(`ValueError` when absent), then the attribute lookup of
`copy_obj.instantiate_sql_objs` against the copy classes' methods, and only
after that the `copy_obj.copy(...)` call. -/
def copy_worker (tableExists : Bool) (maintenanceWorkMem : Option String) :
    List WorkerStep × Option PyError :=
  let setup := [WorkerStep.createEngineStep, WorkerStep.reflectMetadata,
      WorkerStep.connectStep]
    ++ (match maintenanceWorkMem with
        | some _ => [WorkerStep.setMaintenanceMem]
        | none => [])
    ++ [WorkerStep.tableLookup]
  if tableExists then
    if copyClassMethods.contains "instantiate_sql_objs" then
      (setup ++ [WorkerStep.instantiateCall, WorkerStep.runCopy], none)
    else
      (setup ++ [WorkerStep.instantiateCall], some .attributeError)
  else
    (setup, some .valueError)

/-- C8: for every dispatched job whose destination table exists, the worker
raises `AttributeError` at the `instantiate_sql_objs` call and never reaches
the copy step; and no run of the worker, whatever the inputs, completes
without an exception — so no job can ever complete through the orchestrator. -/
theorem c8_worker_attribute_error (mm : Option String) :
    (copy_worker true mm).2 = some .attributeError
    ∧ WorkerStep.runCopy ∉ (copy_worker true mm).1
    ∧ ∀ te : Bool, (copy_worker te mm).2 ≠ none := by
  cases mm with
  | none => exact ⟨rfl, by decide, by decide⟩
  | some s =>
      have h1 : copy_worker true (some s) =
          ([WorkerStep.createEngineStep, WorkerStep.reflectMetadata,
            WorkerStep.connectStep, WorkerStep.setMaintenanceMem,
            WorkerStep.tableLookup, WorkerStep.instantiateCall],
           some .attributeError) := rfl
      have h2 : copy_worker false (some s) =
          ([WorkerStep.createEngineStep, WorkerStep.reflectMetadata,
            WorkerStep.connectStep, WorkerStep.setMaintenanceMem,
            WorkerStep.tableLookup], some .valueError) := rfl
      refine ⟨by rw [h1], by rw [h1]; decide, ?_⟩
      intro te
      cases te
      · rw [h2]
        decide
      · rw [h1]
        decide

/-- Parameter list of `utilities.df_generator`:
`def df_generator(df, chunksize)` — two positional parameters, no `*args` or
`**kwargs`. -/
def df_generator_params : List String := ["df", "chunksize"]

/-- Python call binding for a function without `*args`/`**kwargs`: `npos`
positional arguments followed by the given keyword argument names. The call
raises `TypeError` when there are more positional arguments than parameters,
when a keyword does not name a parameter, or when a keyword names a parameter
already bound positionally. -/
def bindCall (params : List String) (npos : Nat) (kwargs : List String) :
    Option PyError :=
  if params.length < npos then some .typeError
  else if kwargs.any (fun k => !params.contains k) then some .typeError
  else if kwargs.any (fun k => (params.take npos).contains k) then some .typeError
  else none

/-- Outcome of a chunked-transfer run. -/
inductive TransferResult
  | noTables
  | raisedDuring (e : PyError) (chunksCopied : Nat)
  | completed (chunksCopied : Nat)
  deriving DecidableEq, Repr

/-- Per-table loop of `HDFTableCopy.hdf_to_pg` (`copy_hdf.py` lines 100-123)
over the row counts of the job's HDF tables: each table is read and formatted,
then the code calls `df_generator(df, self.csv_chunksize, logger=self.logger)`;
per Python call binding this either raises or yields the generator's chunks,
each of which is copied. -/
def hdfToPgLoop (csv_chunksize : Nat) : List Nat → Nat → TransferResult
  | [], copied => .completed copied
  | rows :: rest, copied =>
      match bindCall df_generator_params 2 ["logger"] with
      | some e => .raisedDuring e copied
      | none => hdfToPgLoop csv_chunksize rest (copied + n_chunks rows csv_chunksize)

/-- Embedding of `HDFTableCopy.hdf_to_pg`. -/
def HDFTableCopy.hdf_to_pg (csv_chunksize : Nat)
    (hdf_tables : Option (List Nat)) : TransferResult :=
  match hdf_tables with
  | none => .noTables
  | some ts => hdfToPgLoop csv_chunksize ts 0

/-- Per-table loop of `BigHDFTableCopy.hdf_to_pg` (`copy_hdf.py` lines
193-232): for each table, `n_chunks` read windows are computed from `nrows`
and `hdf_chunksize`; each window's dataframe is then handed to
`df_generator(df, self.csv_chunksize, logger=self.logger)` — so the chunking
step is reached only when a table has at least one window. -/
def bigHdfToPgLoop (hdf_chunksize csv_chunksize : Nat) :
    List Nat → Nat → TransferResult
  | [], copied => .completed copied
  | nrows :: rest, copied =>
      if big_n_chunks nrows hdf_chunksize = 0 then
        bigHdfToPgLoop hdf_chunksize csv_chunksize rest copied
      else
        match bindCall df_generator_params 2 ["logger"] with
        | some e => .raisedDuring e copied
        | none =>
            bigHdfToPgLoop hdf_chunksize csv_chunksize rest
              (copied + ((bigHdfWindows nrows hdf_chunksize).map
                (fun w => n_chunks (w.2 - w.1) csv_chunksize)).sum)

/-- Embedding of `BigHDFTableCopy.hdf_to_pg`. -/
def BigHDFTableCopy.hdf_to_pg (hdf_chunksize csv_chunksize : Nat)
    (hdf_tables : Option (List Nat)) : TransferResult :=
  match hdf_tables with
  | none => .noTables
  | some ns => bigHdfToPgLoop hdf_chunksize csv_chunksize ns 0

theorem bigHdfToPgLoop_typeError (hc csv : Nat) (hhc : 0 < hc) :
    ∀ ns : List Nat, (∃ n ∈ ns, 0 < n) →
      bigHdfToPgLoop hc csv ns 0 = .raisedDuring .typeError 0
  | [], h => by simp at h
  | n :: rest, h => by
      by_cases hn : big_n_chunks n hc = 0
      · have hn0 : n = 0 := by
          have hge := big_n_chunks_mul_ge (n := n) hhc
          rw [hn] at hge
          omega
        have hrest : ∃ m ∈ rest, 0 < m := by
          obtain ⟨m, hm, hmpos⟩ := h
          rcases List.mem_cons.mp hm with heq | hmem
          · omega
          · exact ⟨m, hmem, hmpos⟩
        show bigHdfToPgLoop hc csv (n :: rest) 0 = _
        rw [bigHdfToPgLoop, if_pos hn]
        exact bigHdfToPgLoop_typeError hc csv hhc rest hrest
      · show bigHdfToPgLoop hc csv (n :: rest) 0 = _
        rw [bigHdfToPgLoop, if_neg hn]
        rfl

/-- C9: whenever the chunked transfer reaches the chunking step — for
`HDFTableCopy.hdf_to_pg` as soon as the job has at least one source key, and
for `BigHDFTableCopy.hdf_to_pg` as soon as some source key has a positive row
count — the `df_generator(df, csv_chunksize, logger=...)` call raises
`TypeError` (the `logger` keyword matches no parameter of `df_generator`),
and zero chunks are copied. -/
theorem c9_chunking_type_error (csv hc : Nat) (ts : List Nat)
    (hts : ts ≠ []) (ns : List Nat) (hns : ∃ n ∈ ns, 0 < n) (hhc : 0 < hc) :
    HDFTableCopy.hdf_to_pg csv (some ts) = .raisedDuring .typeError 0
    ∧ BigHDFTableCopy.hdf_to_pg hc csv (some ns) = .raisedDuring .typeError 0 := by
  constructor
  · match ts, hts with
    | t :: rest, _ => rfl
  · exact bigHdfToPgLoop_typeError hc csv hhc ns hns

/-- C9, witness: one 4-row table raises TypeError immediately; in streaming
mode a 0-row table is skipped and the 7-row table raises TypeError. -/
theorem c9_chunking_type_error_witness :
    HDFTableCopy.hdf_to_pg 5 (some [4]) = .raisedDuring .typeError 0
    ∧ BigHDFTableCopy.hdf_to_pg 3 5 (some [0, 7]) = .raisedDuring .typeError 0 :=
  c9_chunking_type_error 5 3 [4] (by decide) [0, 7] (by decide) (by decide)

/-- Python `set(x)` for a string `x`: iterating a string yields its
characters, so the set contains `x`'s characters — embedded as the
deduplicated list of one-character strings. -/
def charSet (x : String) : List String :=
  (x.toList.map (fun ch => String.mk [ch])).dedup

/-- Embedding of the mapping built by `hdf_to_postgres` when `keys` is
non-empty and no `sql_to_hdf` is supplied (`hdf_to_postgres.py` line 161):
`sql_to_hdf = {x: set(x) for x in keys}`. -/
def keysToSqlToHdf (keys : List String) : List (String × List String) :=
  keys.map (fun x => (x, charSet x))

theorem keysToSqlToHdf_lookup (keys : List String) (x : String)
    (hx : x ∈ keys) : (keysToSqlToHdf keys).lookup x = some (charSet x) := by
  induction keys with
  | nil => simp at hx
  | cons k rest ih =>
      rcases List.mem_cons.mp hx with heq | hmem
      · subst heq
        simp [keysToSqlToHdf, List.lookup]
      · by_cases hk : x = k
        · subst hk
          simp [keysToSqlToHdf, List.lookup]
        · have : (x == k) = false := beq_false_of_ne hk
          simp [keysToSqlToHdf, List.lookup, this]
          exact ih hmem

/-- C10: with a non-empty `keys` list and no `sql_to_hdf`, the built mapping
assigns to each key `x` the set `set(x)` of the individual characters of the
string `x`: membership in the assigned set is exactly being a one-character
string drawn from `x`, and whenever `x` has at least two characters, `x`
itself is not in its assigned set — so the set is not the singleton `{x}`. -/
theorem c10_key_charset_mapping (keys : List String) (x : String)
    (hx : x ∈ keys) :
    (keysToSqlToHdf keys).lookup x = some (charSet x)
    ∧ (∀ y, y ∈ charSet x ↔ ∃ ch ∈ x.toList, y = String.mk [ch])
    ∧ (2 ≤ x.length → x ∉ charSet x) := by
  refine ⟨keysToSqlToHdf_lookup keys x hx, ?_, ?_⟩
  · intro y
    simp [charSet, List.mem_dedup, List.mem_map, eq_comm]
  · intro hlen hmem
    rw [charSet, List.mem_dedup, List.mem_map] at hmem
    obtain ⟨ch, _, heq⟩ := hmem
    have h1 : x.length = 1 := by
      rw [← heq]
      rfl
    omega

/-- C10, witness: key "/cities" is assigned its character set, which contains
"c" but not "/cities" itself. -/
theorem c10_key_charset_mapping_witness :
    (keysToSqlToHdf ["/cities"]).lookup "/cities" = some (charSet "/cities")
    ∧ "/cities" ∉ charSet "/cities" := by
  have h := c10_key_charset_mapping ["/cities"] "/cities" (by simp)
  exact ⟨h.1, h.2.2 (by decide)⟩

end PandasToPostgres
